import Mathlib

/-!
Verification model of the DistributedFs file server, a shallow embedding of
`fileserver/server.go`: peer registry, wire envelope, broadcast, the Store and
Get replication protocols, and the control-loop message handlers.

The content store (`store` package) and the transport (`p2p` package) are
external collaborators of this component; they are modelled from the interface
descriptions of the spec (marked `Modelled from the spec:` below). Everything
else is a direct translation of the Go source.

Operations return the updated server state, an ordered trace of observable
events (local store writes, network writes and reads, stream closes), and an
optional error, mirroring the Go return values.
-/

set_option autoImplicit false

namespace DistributedFs

/-- A byte sequence on the wire or on disk; each entry stands for one byte. -/
abbrev Bytes := List Nat

/-- Modelled from the spec: the one-byte ControlFrame discriminator of package
p2p (not under src/), announcing that a serialized envelope follows. -/
def IncomingMessage : Nat := 1

/-- Modelled from the spec: the one-byte StreamFrame discriminator of package
p2p (not under src/), announcing that raw file bytes follow. -/
def IncomingStream : Nat := 2

/-- One token of the modelled wire serialization. -/
inductive Tok where
  | tnat (n : Nat)
  | tint (i : Int)
  | tstr (s : String)
deriving DecidableEq, Repr

/-- A serialized control payload: a token sequence. -/
abbrev Wire := List Tok

/-- Payload kind MessageStoreFile: announces that Size bytes for (ID, Key)
will follow as a stream. -/
structure MessageStoreFile where
  ID : String
  Key : String
  Size : Int
deriving DecidableEq, Repr

/-- Payload kind MessageGetFile: requests the content stored under (ID, Key). -/
structure MessageGetFile where
  ID : String
  Key : String
deriving DecidableEq, Repr

/-- The dynamic payload of a Message: an `any` field in Go. Besides the two
registered kinds it can hold the nil value a failed decode leaves behind, or
a payload of some unknown kind. -/
inductive Payload where
  | storeFile (m : MessageStoreFile)
  | getFile (m : MessageGetFile)
  | nilPayload
  | unknownPayload (tag : Nat)
deriving DecidableEq, Repr

/-- The envelope wired over the control channel. -/
structure Message where
  Payload : Payload
deriving DecidableEq, Repr

/-- Modelled from the spec: `encoding/gob` encoding of a Message (library code,
not under src/) — a deterministic, self-describing tagged-union serialization.
Only the two registered payload kinds are encodable. -/
def gobEncode : Message → Option Wire
  | ⟨.storeFile m⟩ => some [.tnat 0, .tstr m.ID, .tstr m.Key, .tint m.Size]
  | ⟨.getFile m⟩ => some [.tnat 1, .tstr m.ID, .tstr m.Key]
  | ⟨.nilPayload⟩ => none
  | ⟨.unknownPayload _⟩ => none

/-- Modelled from the spec: `encoding/gob` decoding — recovers the exact
payload kind and all fields from the tag alone, failing on malformed or
unknown-tag input. -/
def gobDecode : Wire → Option Message
  | [.tnat 0, .tstr i, .tstr k, .tint s] => some ⟨.storeFile ⟨i, k, s⟩⟩
  | [.tnat 1, .tstr i, .tstr k] => some ⟨.getFile ⟨i, k⟩⟩
  | _ => none

/-- Modelled from the spec: the external Content Store, durable byte-oriented
key-value storage keyed by (namespace, key). Later writes shadow earlier ones. -/
abbrev ContentStore := List ((String × String) × Bytes)

/-- Look up the bytes stored under (namespace, key). -/
def csLookup : ContentStore → String → String → Option Bytes
  | [], _, _ => none
  | (k, v) :: rest, ns, key => if k = (ns, key) then some v else csLookup rest ns key

/-- Modelled from the spec: `Has(namespace, key)`. -/
def csHas (cs : ContentStore) (ns key : String) : Bool :=
  (csLookup cs ns key).isSome

/-- Modelled from the spec: `Write(namespace, key, stream)` — stores the bytes
read from the stream and returns the byte count written. -/
def csWrite (cs : ContentStore) (ns key : String) (data : Bytes) : Nat × ContentStore :=
  (data.length, ((ns, key), data) :: cs)

/-- Modelled from the spec: `Read(namespace, key)` — size and content, or the
not-found error of the store. -/
def csRead (cs : ContentStore) (ns key : String) : Except String (Nat × Bytes) :=
  match csLookup cs ns key with
  | some v => .ok (v.length, v)
  | none => .error "store: key not found"

/-- One unit written to a peer connection: raw bytes (frame markers, size
fields, file content) or an opaque serialized envelope. -/
inductive WriteUnit where
  | raw (bs : Bytes)
  | ctrl (w : Wire)
deriving DecidableEq, Repr

/-- One live peer connection as the file server sees it: remote address, the
bytes readable from the connection, the units successfully written to it so
far, and the planned outcomes of successive writes (an exhausted plan means
every further write succeeds). -/
structure Peer where
  addr : String
  inbox : Bytes
  sent : List WriteUnit
  sendPlan : List Bool
deriving DecidableEq, Repr

/-- Observable actions of a file-server operation, in execution order. -/
inductive Event where
  | localWrite (ns key : String) (data : Bytes)
  | netWrite (addr : String) (u : WriteUnit)
  | netWriteFail (addr : String) (u : WriteUnit)
  | netRead (addr : String) (bs : Bytes)
  | closeStream (addr : String)
deriving DecidableEq, Repr

/-- The file server state: node identity (namespace), content store, and the
peer registry in iteration order. -/
structure FileServer where
  ID : String
  store : ContentStore
  peers : List Peer
deriving DecidableEq, Repr

/-- The error a failed network write surfaces, identifying the peer. -/
def sendErr (a : String) : String := "send failed: " ++ a

/-- Attempt one write to a peer: consumes the head of the send plan (success
when the plan is exhausted); a successful write is appended to `sent`. -/
def sendTo (p : Peer) (u : WriteUnit) : Peer × Bool × Event :=
  match p.sendPlan with
  | [] => ({ p with sent := p.sent ++ [u] }, true, .netWrite p.addr u)
  | ok :: rest =>
    if ok then ({ p with sent := p.sent ++ [u], sendPlan := rest }, true, .netWrite p.addr u)
    else ({ p with sendPlan := rest }, false, .netWriteFail p.addr u)

/-- The per-peer body of BroadCast: Send the ControlFrame marker byte, then
Send the serialized envelope; the first failing Send aborts the remaining
peers and reports its error. -/
def broadCastLoop : List Peer → WriteUnit → WriteUnit → List Peer × List Event × Option String
  | [], _, _ => ([], [], none)
  | p :: rest, marker, body =>
    let s1 := sendTo p marker
    if s1.2.1 then
      let s2 := sendTo s1.1 body
      if s2.2.1 then
        let r := broadCastLoop rest marker body
        (s2.1 :: r.1, s1.2.2 :: s2.2.2 :: r.2.1, r.2.2)
      else (s2.1 :: rest, [s1.2.2, s2.2.2], some (sendErr p.addr))
    else (s1.1 :: rest, [s1.2.2], some (sendErr p.addr))

/-- Method `FileServer.BroadCast` (server.go): gob-encode the message once into a
buffer, then for every registered peer send the IncomingMessage byte followed
by the encoded bytes; the first failing send returns its error. -/
def FileServer.BroadCast (fs : FileServer) (msg : Message) :
    FileServer × List Event × Option String :=
  match gobEncode msg with
  | none => (fs, [], some "gob: encode error")
  | some w =>
    let r := broadCastLoop fs.peers (.raw [IncomingMessage]) (.ctrl w)
    ({ fs with peers := r.1 }, r.2.1, r.2.2)

/-- The `io.MultiWriter` semantics: write the unit to each peer in order, stopping
at the first failing write and returning its error. -/
def multiWrite : List Peer → WriteUnit → List Peer × List Event × Option String
  | [], _ => ([], [], none)
  | p :: rest, u =>
    let s := sendTo p u
    if s.2.1 then
      let r := multiWrite rest u
      (s.1 :: r.1, s.2.2 :: r.2.1, r.2.2)
    else (s.1 :: rest, [s.2.2], some (sendErr p.addr))

/-- Method `FileServer.Store` (server.go): tee the input into the local store (which
yields its size), broadcast StoreFile{ID, Key, Size}, wait the settling delay,
then fan out the IncomingStream byte and the buffered content to all peers
through a multi-writer. The error of the marker write is discarded by the source;
`io.Copy` of an empty buffer performs no write. -/
def FileServer.Store (fs : FileServer) (key : String) (data : Bytes) :
    FileServer × List Event × Option String :=
  let wr := csWrite fs.store fs.ID key data
  let fs1 : FileServer := { fs with store := wr.2 }
  let ev0 := Event.localWrite fs.ID key data
  let msg : Message := ⟨.storeFile ⟨fs.ID, key, (wr.1 : Int)⟩⟩
  let b := fs1.BroadCast msg
  match b.2.2 with
  | some e => (b.1, ev0 :: b.2.1, some e)
  | none =>
    let m1 := multiWrite b.1.peers (.raw [IncomingStream])
    if data.isEmpty then
      ({ b.1 with peers := m1.1 }, ev0 :: (b.2.1 ++ m1.2.1), none)
    else
      let m2 := multiWrite m1.1 (.raw data)
      ({ b.1 with peers := m2.1 }, ev0 :: (b.2.1 ++ m1.2.1 ++ m2.2.1), m2.2.2)

/-- Read up to n bytes from a peer connection, consuming its inbox. -/
def readN (p : Peer) (n : Nat) : Peer × Bytes :=
  ({ p with inbox := p.inbox.drop n }, p.inbox.take n)

/-- Decode 8 little-endian bytes as a twos-complement int64. -/
def int64FromLE (bs : Bytes) : Int :=
  let u : Nat := (bs.take 8).foldr (fun b acc => acc * 256 + b % 256) 0
  if u < 2 ^ 63 then (u : Int) else (u : Int) - 2 ^ 64

/-- Encode an integer as 8 little-endian bytes (int64, twos complement). -/
def int64LE (i : Int) : Bytes :=
  (List.range 8).map (fun k => (i % (2 : Int) ^ 64).toNat / 256 ^ k % 256)

/-- The per-peer fetch loop of Get (server.go): read the fixed-width file size
off the connection (`binary.Read`; its error is ignored, leaving size 0), do a
bounded read of that many bytes into the content store under (ID, key), then
CloseStream. Runs for every registered peer unconditionally. -/
def getLoop : List Peer → ContentStore → String → String → List Peer × ContentStore × List Event
  | [], cs, _, _ => ([], cs, [])
  | p :: rest, cs, ns, key =>
    let r1 := readN p 8
    let fileSize : Int := if r1.2.length = 8 then int64FromLE r1.2 else 0
    let r2 := readN r1.1 fileSize.toNat
    let wr := csWrite cs ns key r2.2
    let r := getLoop rest wr.2 ns key
    (r2.1 :: r.1, r.2.1,
     .netRead p.addr r1.2 :: .netRead p.addr r2.2 :: .closeStream p.addr :: r.2.2)

/-- Method `FileServer.Get` (server.go): serve from the local store when present (no
network action); otherwise broadcast GetFile{ID, Key}, wait the settling
delay, run the per-peer fetch loop, and return the result of re-reading the
key from the local store. -/
def FileServer.Get (fs : FileServer) (key : String) :
    FileServer × List Event × Except String Bytes :=
  if csHas fs.store fs.ID key then
    match csRead fs.store fs.ID key with
    | .ok sv => (fs, [], .ok sv.2)
    | .error e => (fs, [], .error e)
  else
    let msg : Message := ⟨.getFile ⟨fs.ID, key⟩⟩
    let b := fs.BroadCast msg
    match b.2.2 with
    | some e => (b.1, b.2.1, .error e)
    | none =>
      let g := getLoop b.1.peers b.1.store fs.ID key
      let fs2 : FileServer := { b.1 with peers := g.1, store := g.2.1 }
      match csRead fs2.store fs.ID key with
      | .ok sv => (fs2, b.2.1 ++ g.2.2, .ok sv.2)
      | .error e => (fs2, b.2.1 ++ g.2.2, .error e)

/-- Find the registered peer with the given remote address. -/
def findPeer : List Peer → String → Option Peer
  | [], _ => none
  | p :: rest, a => if p.addr = a then some p else findPeer rest a

/-- Replace the registered peer with the given remote address. -/
def updatePeer : List Peer → String → Peer → List Peer
  | [], _, _ => []
  | p :: rest, a, q => if p.addr = a then q :: rest else p :: updatePeer rest a q

/-- Method `FileServer.handleMessageStoreFile` (server.go): look the sender up in the
peer registry (hard error when absent), bounded-read Size bytes from that
connection into the store under the (ID, Key) of the envelope, then CloseStream. -/
def FileServer.handleMessageStoreFile (fs : FileServer) (frm : String)
    (msg : MessageStoreFile) : FileServer × List Event × Option String :=
  match findPeer fs.peers frm with
  | none => (fs, [], some ("peer could not be found in the peer list: " ++ frm))
  | some p =>
    let r := readN p msg.Size.toNat
    let wr := csWrite fs.store msg.ID msg.Key r.2
    ({ fs with store := wr.2, peers := updatePeer fs.peers frm r.1 },
     [.netRead frm r.2, .localWrite msg.ID msg.Key r.2, .closeStream frm], none)

/-- Method `FileServer.handleMessageGetFile` (server.go): error when the local store
lacks the key; otherwise read it, look the requester up in the registry (error
when absent), and write the IncomingStream byte, the size as a little-endian
int64, and the content. The marker and size write errors are discarded by the
source; the error of the content copy is returned. -/
def FileServer.handleMessageGetFile (fs : FileServer) (frm : String)
    (msg : MessageGetFile) : FileServer × List Event × Option String :=
  if csHas fs.store msg.ID msg.Key = false then
    (fs, [], some ("need to serve file but it does not exist on disk: " ++ msg.Key))
  else
    match csRead fs.store msg.ID msg.Key with
    | .error e => (fs, [], some e)
    | .ok sv =>
      match findPeer fs.peers frm with
      | none => (fs, [], some ("peer not in map: " ++ frm))
      | some p =>
        let s1 := sendTo p (.raw [IncomingStream])
        let s2 := sendTo s1.1 (.raw (int64LE (sv.1 : Int)))
        let s3 := sendTo s2.1 (.raw sv.2)
        ({ fs with peers := updatePeer fs.peers frm s3.1 },
         [s1.2.2, s2.2.2, s3.2.2],
         if s3.2.1 then none else some (sendErr p.addr))

/-- Method `FileServer.handleMessage` (server.go): dispatch on the dynamic payload
kind; payloads matching neither registered kind fall through and return nil. -/
def FileServer.handleMessage (fs : FileServer) (frm : String) (msg : Message) :
    FileServer × List Event × Option String :=
  match msg.Payload with
  | .storeFile m => fs.handleMessageStoreFile frm m
  | .getFile m => fs.handleMessageGetFile frm m
  | .nilPayload => (fs, [], none)
  | .unknownPayload _ => (fs, [], none)

/-- An inbound control-channel frame: sender address and payload bytes. -/
structure RPC where
  From : String
  Payload : Wire
deriving DecidableEq, Repr

/-- One iteration of the control loop (server.go ReadLoop): decode the frame
payload (a decode error is logged and leaves the zero-valued Message, whose
nil payload the dispatcher ignores), then handle the message (a handler error
is logged, not propagated). -/
def readLoopStep (fs : FileServer) (rpc : RPC) : FileServer × List Event :=
  let m : Message :=
    match gobDecode rpc.Payload with
    | some m => m
    | none => ⟨.nilPayload⟩
  let h := fs.handleMessage rpc.From m
  (h.1, h.2.1)

/-- Method `FileServer.ReadLoop` (server.go) over a finite schedule of inbound
frames: processes every frame in order; no frame terminates the loop. -/
def ReadLoop (fs : FileServer) : List RPC → FileServer × List Event
  | [] => (fs, [])
  | r :: rest =>
    let s := readLoopStep fs r
    let t := ReadLoop s.1 rest
    (t.1, s.2 ++ t.2)


/-! ## Theorems -/

theorem findPeer_addr :
    ∀ (ps : List Peer) (a : String) (p : Peer), findPeer ps a = some p → p.addr = a := by
  intro ps a
  induction ps with
  | nil => intro p h; simp [findPeer] at h
  | cons q rest ih =>
    intro p h
    by_cases hq : q.addr = a
    · simp [findPeer, hq] at h
      subst h
      exact hq
    · simp [findPeer, hq] at h
      exact ih p h

/-- C3: Envelope round-trip — for every constructible Envelope value (payload
kind StoreFile{ID, Key, Size} or GetFile{ID, Key}, with any field values,
including size 0 and multi-gigabyte sizes), decoding the bytes produced by
encoding it recovers a value equal to the original, exact payload kind and
all fields included, with no external hints. -/
theorem gob_roundtrip (m : Message) (w : Wire) (h : gobEncode m = some w) :
    gobDecode w = some m := by
  rcases m with ⟨p⟩
  cases p with
  | storeFile s =>
    rcases s with ⟨i, k, z⟩
    simp [gobEncode] at h
    subst h
    rfl
  | getFile s =>
    rcases s with ⟨i, k⟩
    simp [gobEncode] at h
    subst h
    rfl
  | nilPayload => simp [gobEncode] at h
  | unknownPayload t => simp [gobEncode] at h

/-- Witness for C3 at a StoreFile envelope declaring an 8 GiB size. -/
theorem gob_roundtrip_witness :
    gobDecode [Tok.tnat 0, Tok.tstr "node", Tok.tstr "k", Tok.tint 8589934592] =
      some ⟨.storeFile ⟨"node", "k", 8589934592⟩⟩ :=
  gob_roundtrip ⟨.storeFile ⟨"node", "k", 8589934592⟩⟩ _ rfl

/-- C2: Local-hit — when the local content store has (ID, key), Get returns
exactly the locally stored bytes, leaves the server unchanged, and produces
an empty event trace: no broadcast is sent and no peer connection is read. -/
theorem get_local_hit (fs : FileServer) (key : String) (v : Bytes)
    (h : csLookup fs.store fs.ID key = some v) :
    fs.Get key = (fs, [], .ok v) := by
  simp [FileServer.Get, csHas, csRead, h]

/-- The server of the C2 witness: it holds ("1234", "k") locally. -/
def fsHitW : FileServer := ⟨"1234", [(("1234", "k"), [5, 6])], [⟨"p1", [], [], []⟩]⟩

/-- Witness for C2: a concrete local hit served with no network action. -/
theorem get_local_hit_witness : fsHitW.Get "k" = (fsHitW, [], .ok [5, 6]) :=
  get_local_hit fsHitW "k" [5, 6] rfl

/-- C9: a control frame whose payload fails to decode has no effect — the
zero-valued message it leaves behind is ignored by the dispatcher, so the
server state is unchanged, no store write and no peer write happens (empty
event trace), and the control loop goes on to process the remaining frames. -/
theorem readLoop_malformed (fs : FileServer) (rpc : RPC) (rest : List RPC)
    (h : gobDecode rpc.Payload = none) :
    readLoopStep fs rpc = (fs, []) ∧ ReadLoop fs (rpc :: rest) = ReadLoop fs rest := by
  have hstep : readLoopStep fs rpc = (fs, []) := by
    simp [readLoopStep, h, FileServer.handleMessage]
  exact ⟨hstep, by simp [ReadLoop, hstep]⟩

/-- The server of the C9 witness. -/
def fsLoopW : FileServer := ⟨"1234", [(("1234", "k"), [5])], [⟨"p1", [], [], []⟩]⟩

/-- Witness for C9 at a concrete malformed frame. -/
theorem readLoop_malformed_witness :
    readLoopStep fsLoopW ⟨"a", [Tok.tnat 99]⟩ = (fsLoopW, [])
    ∧ ReadLoop fsLoopW [⟨"a", [Tok.tnat 99]⟩] = ReadLoop fsLoopW [] :=
  readLoop_malformed fsLoopW ⟨"a", [Tok.tnat 99]⟩ [] rfl

/-- C10: a message whose payload is neither a MessageStoreFile nor a
MessageGetFile value (the nil payload a failed decode leaves, or an unknown
kind) makes handleMessage return nil — success, not an error — leaving the
content store and the peer registry unchanged and writing nothing. -/
theorem handleMessage_unknown (fs : FileServer) (frm : String) (msg : Message)
    (h1 : ∀ m, msg.Payload ≠ Payload.storeFile m)
    (h2 : ∀ m, msg.Payload ≠ Payload.getFile m) :
    fs.handleMessage frm msg = (fs, [], none) := by
  rcases msg with ⟨p⟩
  cases p with
  | storeFile m => exact absurd rfl (h1 m)
  | getFile m => exact absurd rfl (h2 m)
  | nilPayload => rfl
  | unknownPayload t => rfl

/-- Witness for C10 at the nil payload. -/
theorem handleMessage_unknown_witness :
    FileServer.handleMessage ⟨"1234", [], []⟩ "a" ⟨Payload.nilPayload⟩ =
      (⟨"1234", [], []⟩, [], none) :=
  handleMessage_unknown _ _ _ (fun _ h => Payload.noConfusion h)
    (fun _ h => Payload.noConfusion h)


/-- C5: StoreFile handler — an unregistered sender is a hard error leaving
the server unchanged; for a registered sender the handler bounded-reads Size
bytes from the connection of that sender (exactly Size when available, and never
more than Size), writes them into the content store under the namespace (ID)
and Key of the envelope, and only then signals CloseStream (visible in the
trace order: the local write precedes the close). -/
theorem handleStoreFile_spec (fs : FileServer) (frm : String) (msg : MessageStoreFile) :
    (findPeer fs.peers frm = none →
      fs.handleMessageStoreFile frm msg =
        (fs, [], some ("peer could not be found in the peer list: " ++ frm)))
    ∧ (∀ p, findPeer fs.peers frm = some p →
        fs.handleMessageStoreFile frm msg =
          ({ fs with
              store := ((msg.ID, msg.Key), p.inbox.take msg.Size.toNat) :: fs.store,
              peers := updatePeer fs.peers frm { p with inbox := p.inbox.drop msg.Size.toNat } },
           [.netRead frm (p.inbox.take msg.Size.toNat),
            .localWrite msg.ID msg.Key (p.inbox.take msg.Size.toNat),
            .closeStream frm], none)
        ∧ (p.inbox.take msg.Size.toNat).length ≤ msg.Size.toNat
        ∧ (msg.Size.toNat ≤ p.inbox.length →
            (p.inbox.take msg.Size.toNat).length = msg.Size.toNat)) := by
  constructor
  · intro h
    simp [FileServer.handleMessageStoreFile, h]
  · intro p hp
    refine ⟨?_, ?_, ?_⟩
    · simp [FileServer.handleMessageStoreFile, hp, readN, csWrite]
    · simp [List.length_take]
    · intro hle
      simp [List.length_take]
      omega

/-- The server of the C5 witness: one registered peer with four readable
bytes. -/
def fsHsfW : FileServer := ⟨"1234", [], [⟨"q", [1, 2, 3, 4], [], []⟩]⟩

/-- Witness for C5: storing exactly 3 of the 4 available bytes. -/
theorem handleStoreFile_witness :
    fsHsfW.handleMessageStoreFile "q" ⟨"ns", "kk", 3⟩ =
      (⟨"1234", [(("ns", "kk"), [1, 2, 3])], [⟨"q", [4], [], []⟩]⟩,
       [.netRead "q" [1, 2, 3], .localWrite "ns" "kk" [1, 2, 3], .closeStream "q"], none) := by
  have h := ((handleStoreFile_spec fsHsfW "q" ⟨"ns", "kk", 3⟩).2
    ⟨"q", [1, 2, 3, 4], [], []⟩ rfl).1
  rw [h]
  rfl

/-- The server of the C6 counterexample: it holds ("1234", "k") locally but
the requesting address is not in the (empty) peer registry. -/
def fsHgfC : FileServer := ⟨"1234", [(("1234", "k"), [1])], []⟩

/-- C6 counterexample: the local store has the requested (namespace, key),
yet the GetFile handler writes nothing to any connection (empty trace) and
returns an error, because the requester address is not in the peer
registry — so store possession alone does not make the handler stream the
file, contrary to the claim. -/
theorem handleGetFile_counterexample :
    csHas fsHgfC.store "1234" "k" = true
    ∧ fsHgfC.handleMessageGetFile "addr" ⟨"1234", "k"⟩ =
        (fsHgfC, [], some ("peer not in map: " ++ "addr")) := by
  constructor
  · rfl
  · rfl

/-- A peer whose next three writes all succeed. -/
def planOk3 (p : Peer) : Bool := (p.sendPlan.take 3).all (fun x => x)

/-- Three successful writes to one peer, composed. -/
theorem sendTo_three_ok (p : Peer) (u1 u2 u3 : WriteUnit) (h : planOk3 p = true) :
    (sendTo (sendTo (sendTo p u1).1 u2).1 u3).1 =
      { p with sent := p.sent ++ [u1, u2, u3], sendPlan := p.sendPlan.drop 3 }
    ∧ (sendTo p u1).2 = (true, .netWrite p.addr u1)
    ∧ (sendTo (sendTo p u1).1 u2).2 = (true, .netWrite p.addr u2)
    ∧ (sendTo (sendTo (sendTo p u1).1 u2).1 u3).2 = (true, .netWrite p.addr u3) := by
  rcases p with ⟨a, ib, st, plan⟩
  rcases plan with _ | ⟨b1, _ | ⟨b2, _ | ⟨b3, t⟩⟩⟩ <;>
    simp [planOk3] at h <;> simp_all [sendTo]

/-- The state of the connection of the requester after a GetFile envelope has been
served content v: marker byte, little-endian size, then the content. -/
def servedPeer (p : Peer) (v : Bytes) : Peer :=
  { p with
      sent := p.sent ++ [.raw [IncomingStream], .raw (int64LE (v.length : Int)), .raw v],
      sendPlan := p.sendPlan.drop 3 }

/-- C6 amended: on a GetFile envelope, a locally missing key is an error with
nothing written to any connection; when the store has the key AND the
requester address is in the peer registry (the condition the code adds),
the handler writes to that connection, in order, the stream-frame marker
byte, the file size as a fixed-width little-endian int64, and the full file
content. -/
theorem handleGetFile_spec (fs : FileServer) (frm : String) (msg : MessageGetFile) :
    (csLookup fs.store msg.ID msg.Key = none →
      fs.handleMessageGetFile frm msg =
        (fs, [], some ("need to serve file but it does not exist on disk: " ++ msg.Key)))
    ∧ (∀ v, csLookup fs.store msg.ID msg.Key = some v →
        (findPeer fs.peers frm = none →
          fs.handleMessageGetFile frm msg = (fs, [], some ("peer not in map: " ++ frm)))
        ∧ (∀ p, findPeer fs.peers frm = some p → planOk3 p = true →
            fs.handleMessageGetFile frm msg =
              ({ fs with peers := updatePeer fs.peers frm (servedPeer p v) },
               [.netWrite frm (.raw [IncomingStream]),
                .netWrite frm (.raw (int64LE (v.length : Int))),
                .netWrite frm (.raw v)], none))) := by
  constructor
  · intro h
    simp [FileServer.handleMessageGetFile, csHas, h]
  · intro v hv
    constructor
    · intro hnone
      simp [FileServer.handleMessageGetFile, csHas, csRead, hv, hnone]
    · intro p hp hplan
      have ha := findPeer_addr fs.peers frm p hp
      have h3 := sendTo_three_ok p (.raw [IncomingStream])
        (.raw (int64LE (v.length : Int))) (.raw v) hplan
      subst ha
      simp [FileServer.handleMessageGetFile, csHas, csRead, hv, hp,
        h3.1, h3.2.1, h3.2.2.1, h3.2.2.2, servedPeer]

/-- The server of the C6 witness: it holds ("1234", "k") and the requester is
registered. -/
def fsHgfW : FileServer := ⟨"1234", [(("1234", "k"), [4, 4])], [⟨"q", [], [], []⟩]⟩

/-- Witness for the amended C6: marker, little-endian size, then content are
written in order to the registered requester. -/
theorem handleGetFile_spec_witness :
    fsHgfW.handleMessageGetFile "q" ⟨"1234", "k"⟩ =
      (⟨"1234", [(("1234", "k"), [4, 4])],
        [⟨"q", [], [.raw [2], .raw [2, 0, 0, 0, 0, 0, 0, 0], .raw [4, 4]], []⟩]⟩,
       [.netWrite "q" (.raw [2]), .netWrite "q" (.raw [2, 0, 0, 0, 0, 0, 0, 0]),
        .netWrite "q" (.raw [4, 4])], none) := by
  have h := ((handleGetFile_spec fsHgfW "q" ⟨"1234", "k"⟩).2 [4, 4] rfl).2
    ⟨"q", [], [], []⟩ rfl rfl
  rw [h]
  rfl


/-- A peer whose next two writes succeed. -/
def bcOk (p : Peer) : Bool := (p.sendPlan.take 2).all (fun x => x)

/-- The effect of two successful writes on a peer. -/
def applySend2 (m b : WriteUnit) (p : Peer) : Peer :=
  { p with sent := p.sent ++ [m, b], sendPlan := p.sendPlan.drop 2 }

/-- The event trace of a fully successful broadcast over a peer list. -/
def bcEvents (m b : WriteUnit) : List Peer → List Event
  | [] => []
  | p :: rest => .netWrite p.addr m :: .netWrite p.addr b :: bcEvents m b rest

/-- Two successful writes to one peer, composed. -/
theorem sendTo_twice_ok (p : Peer) (m b : WriteUnit) (h : bcOk p = true) :
    (sendTo (sendTo p m).1 b).1 = applySend2 m b p
    ∧ (sendTo p m).2 = (true, .netWrite p.addr m)
    ∧ (sendTo (sendTo p m).1 b).2 = (true, .netWrite p.addr b) := by
  rcases p with ⟨a, ib, st, plan⟩
  rcases plan with _ | ⟨b1, _ | ⟨b2, t⟩⟩ <;>
    simp [bcOk] at h <;> simp_all [sendTo, applySend2]

/-- A fully successful broadcast loop: every peer gets the marker and the
body appended, in list order, with no error. -/
theorem broadCastLoop_allOk (m b : WriteUnit) :
    ∀ ps : List Peer, (∀ p ∈ ps, bcOk p = true) →
      broadCastLoop ps m b = (ps.map (applySend2 m b), bcEvents m b ps, none) := by
  intro ps
  induction ps with
  | nil => intro _; rfl
  | cons p rest ih =>
    intro h
    have hp := sendTo_twice_ok p m b (h p (List.mem_cons_self p rest))
    have hr := ih (fun q hq => h q (List.mem_cons_of_mem p hq))
    simp [broadCastLoop, hp.1, hp.2.1, hp.2.2, hr, bcEvents]

/-- A broadcast loop aborts at the first peer one of whose two writes fails:
the error of that peer is returned and the peers after it are left untouched. -/
theorem broadCastLoop_abort (m b : WriteUnit) :
    ∀ (good : List Peer) (bad : Peer) (rest : List Peer),
      (∀ p ∈ good, bcOk p = true) → bcOk bad = false →
      ∃ badP evs, broadCastLoop (good ++ bad :: rest) m b =
        (good.map (applySend2 m b) ++ badP :: rest, evs, some (sendErr bad.addr)) := by
  intro good
  induction good with
  | nil =>
    intro bad rest _ hbad
    rcases bad with ⟨a, ib, st, plan⟩
    rcases plan with _ | ⟨b1, t⟩
    · simp [bcOk] at hbad
    · rcases b1 with _ | _
      · refine ⟨⟨a, ib, st, t⟩, [.netWriteFail a m], ?_⟩
        simp [broadCastLoop, sendTo]
      · rcases t with _ | ⟨b2, t2⟩
        · simp [bcOk] at hbad
        · rcases b2 with _ | _
          · refine ⟨⟨a, ib, st ++ [m], t2⟩, [.netWrite a m, .netWriteFail a b], ?_⟩
            simp [broadCastLoop, sendTo]
          · simp [bcOk] at hbad
  | cons p rest2 ih =>
    intro bad rest h hbad
    have hp := sendTo_twice_ok p m b (h p (List.mem_cons_self p rest2))
    obtain ⟨badP, evs, hr⟩ := ih bad rest (fun q hq => h q (List.mem_cons_of_mem p hq)) hbad
    refine ⟨badP, .netWrite p.addr m :: .netWrite p.addr b :: evs, ?_⟩
    simp [broadCastLoop, hp.1, hp.2.1, hp.2.2, hr]

/-- C4: BroadCast serializes the envelope once — with zero peers it returns
without error having written nothing; when both writes to every peer succeed it
writes, per peer, the ControlFrame marker byte followed by the one serialized
envelope (the same bytes for every peer); and the first peer write that fails
makes it stop immediately and return that error, no write being attempted to
the remaining peers and nothing being retried. -/
theorem broadCast_spec (fs : FileServer) (msg : Message) (w : Wire)
    (h : gobEncode msg = some w) :
    (fs.peers = [] → fs.BroadCast msg = (fs, [], none))
    ∧ ((∀ p ∈ fs.peers, bcOk p = true) →
        fs.BroadCast msg =
          ({ fs with peers := fs.peers.map (applySend2 (.raw [IncomingMessage]) (.ctrl w)) },
           bcEvents (.raw [IncomingMessage]) (.ctrl w) fs.peers, none))
    ∧ (∀ (good : List Peer) (bad : Peer) (rest : List Peer),
        fs.peers = good ++ bad :: rest →
        (∀ p ∈ good, bcOk p = true) → bcOk bad = false →
        ∃ badP evs,
          fs.BroadCast msg =
            ({ fs with peers :=
                good.map (applySend2 (.raw [IncomingMessage]) (.ctrl w)) ++ badP :: rest },
             evs, some (sendErr bad.addr))) := by
  refine ⟨?_, ?_, ?_⟩
  · intro hpe
    rcases fs with ⟨i, cs, ps⟩
    simp at hpe
    subst hpe
    simp [FileServer.BroadCast, h, broadCastLoop]
  · intro hall
    simp [FileServer.BroadCast, h, broadCastLoop_allOk _ _ fs.peers hall]
  · intro good bad rest hsplit hgood hbad
    obtain ⟨badP, evs, hr⟩ :=
      broadCastLoop_abort (.raw [IncomingMessage]) (.ctrl w) good bad rest hgood hbad
    refine ⟨badP, evs, ?_⟩
    simp [FileServer.BroadCast, h, hsplit, hr]

/-- The server of the C4 witness: p1 delivers both writes, p2 fails its first
write, and p3 must remain untouched. -/
def fsBcW : FileServer :=
  ⟨"1234", [],
   [⟨"p1", [], [], []⟩, ⟨"p2", [], [], [false]⟩, ⟨"p3", [], [], []⟩]⟩

/-- Witness for C4: the failing second peer aborts the broadcast with its
error; the third peer is left untouched. -/
theorem broadCast_spec_witness :
    ∃ badP evs, fsBcW.BroadCast ⟨.getFile ⟨"1234", "k"⟩⟩ =
      ({ fsBcW with peers :=
          [applySend2 (.raw [IncomingMessage]) (.ctrl [.tnat 1, .tstr "1234", .tstr "k"])
            ⟨"p1", [], [], []⟩] ++ badP :: [⟨"p3", [], [], []⟩] },
       evs, some (sendErr "p2")) :=
  (broadCast_spec fsBcW ⟨.getFile ⟨"1234", "k"⟩⟩ [.tnat 1, .tstr "1234", .tstr "k"] rfl).2.2
    [⟨"p1", [], [], []⟩] ⟨"p2", [], [], [false]⟩ [⟨"p3", [], [], []⟩] rfl (by decide) rfl


/-- BroadCast only touches the peer registry: store and identity survive. -/
theorem broadCast_fields (fs : FileServer) (msg : Message) :
    (fs.BroadCast msg).1.store = fs.store ∧ (fs.BroadCast msg).1.ID = fs.ID := by
  cases hm : gobEncode msg <;> simp [FileServer.BroadCast, hm]

/-- Store always begins with the local write: whatever happens afterwards on
the network, the final store is the local insert and the trace starts with
the local-write event. -/
theorem store_shape (fs : FileServer) (key : String) (data : Bytes) :
    (fs.Store key data).1.store = ((fs.ID, key), data) :: fs.store
    ∧ ∃ t, (fs.Store key data).2.1 = Event.localWrite fs.ID key data :: t := by
  unfold FileServer.Store
  simp only [csWrite]
  split
  · exact ⟨(broadCast_fields _ _).1, _, rfl⟩
  · split
    · exact ⟨(broadCast_fields _ _).1, _, rfl⟩
    · exact ⟨(broadCast_fields _ _).1, _, rfl⟩

/-- C1: Store durability — when Store(key, data) returns without error the
local content store has (ID, key) and a local read returns bytes identical to
data; with zero registered peers Store still returns without error; and the
local write completes before any network write is attempted (it is the first
event of the trace). -/
theorem store_durability (fs : FileServer) (key : String) (data : Bytes) :
    ((fs.Store key data).2.2 = none →
      csLookup (fs.Store key data).1.store fs.ID key = some data
      ∧ csRead (fs.Store key data).1.store fs.ID key = .ok (data.length, data))
    ∧ (fs.peers = [] → (fs.Store key data).2.2 = none)
    ∧ ∃ t, (fs.Store key data).2.1 = Event.localWrite fs.ID key data :: t := by
  obtain ⟨hs, ht⟩ := store_shape fs key data
  refine ⟨fun _ => ⟨?_, ?_⟩, ?_, ht⟩
  · rw [hs]
    simp [csLookup]
  · rw [hs]
    simp [csRead, csLookup]
  · intro hpe
    unfold FileServer.Store
    simp only [csWrite, FileServer.BroadCast, gobEncode, hpe, broadCastLoop, multiWrite]
    split <;> simp [multiWrite]

/-- The server of the C1 witness: no peers are registered. -/
def fsSdW : FileServer := ⟨"1234", [], []⟩

/-- Witness for C1: with zero peers, Store succeeds and the data is locally
durable. -/
theorem store_durability_witness :
    (fsSdW.Store "k" [7, 8]).2.2 = none
    ∧ csLookup (fsSdW.Store "k" [7, 8]).1.store fsSdW.ID "k" = some [7, 8] := by
  have h := store_durability fsSdW "k" [7, 8]
  have hz := h.2.1 rfl
  exact ⟨hz, (h.1 hz).1⟩

/-- The serialized StoreFile envelope for (id, key) at a given size. -/
def storeWire (id key : String) (n : Nat) : Wire :=
  [.tnat 0, .tstr id, .tstr key, .tint (n : Int)]

/-- A write attempt never removes anything from the sent history of a peer. -/
theorem sendTo_sent_keep (p : Peer) (u x : WriteUnit) (h : x ∈ p.sent) :
    x ∈ (sendTo p u).1.sent := by
  rcases p with ⟨a, ib, st, plan⟩
  rcases plan with _ | ⟨b, t⟩
  · simp [sendTo]
    exact Or.inl h
  · cases b
    · simp [sendTo]
      exact h
    · simp [sendTo]
      exact Or.inl h

/-- A multi-writer pass never removes anything from the sent history of any peer. -/
theorem multiWrite_sent_keep (u x : WriteUnit) :
    ∀ ps : List Peer, (∀ p ∈ ps, x ∈ p.sent) → ∀ q ∈ (multiWrite ps u).1, x ∈ q.sent := by
  intro ps
  induction ps with
  | nil =>
    intro _ q hq
    simp [multiWrite] at hq
  | cons p rest ih =>
    intro h q hq
    by_cases hs : (sendTo p u).2.1 = true
    · simp [multiWrite, hs] at hq
      rcases hq with hq | hq
      · subst hq
        exact sendTo_sent_keep p u x (h p (List.mem_cons_self p rest))
      · exact ih (fun r hr => h r (List.mem_cons_of_mem p hr)) q hq
    · simp [multiWrite, hs] at hq
      rcases hq with hq | hq
      · subst hq
        exact sendTo_sent_keep p u x (h p (List.mem_cons_self p rest))
      · exact h q (List.mem_cons_of_mem p hq)

/-- C8: when the local write and the broadcast succeed but the stream fan-out
write fails at some peer, Store surfaces that error to the caller while the
local content store still holds (ID, key) with the full content — the local
write is not rolled back — and the StoreFile envelopes already delivered stay
in the sent history of every peer (nothing is retracted). -/
theorem store_partial_failure (fs : FileServer) (key : String) (data : Bytes) (e : String)
    (hbc : ∀ p ∈ fs.peers, bcOk p = true) (hne : data ≠ [])
    (hfail : (multiWrite (multiWrite (fs.peers.map (applySend2 (.raw [IncomingMessage])
          (.ctrl (storeWire fs.ID key data.length)))) (.raw [IncomingStream])).1
        (.raw data)).2.2 = some e) :
    (fs.Store key data).2.2 = some e
    ∧ csLookup (fs.Store key data).1.store fs.ID key = some data
    ∧ ∀ p ∈ (fs.Store key data).1.peers,
        WriteUnit.ctrl (storeWire fs.ID key data.length) ∈ p.sent := by
  have hd : data.isEmpty = false := by
    cases data
    · exact absurd rfl hne
    · rfl
  have hw : gobEncode ⟨.storeFile ⟨fs.ID, key, (data.length : Int)⟩⟩ =
      some (storeWire fs.ID key data.length) := rfl
  have hloop := broadCastLoop_allOk (.raw [IncomingMessage])
    (.ctrl (storeWire fs.ID key data.length)) fs.peers hbc
  have hmem : ∀ p ∈ fs.peers.map (applySend2 (.raw [IncomingMessage])
      (.ctrl (storeWire fs.ID key data.length))),
      WriteUnit.ctrl (storeWire fs.ID key data.length) ∈ p.sent := by
    intro p hp
    rcases List.mem_map.mp hp with ⟨q, _, hq⟩
    subst hq
    simp [applySend2]
  refine ⟨?_, ?_, ?_⟩
  · unfold FileServer.Store
    simp only [csWrite, FileServer.BroadCast, hw, hloop, hd]
    split
    · rename_i hcontra
      simp at hcontra
    · exact hfail
  · rw [(store_shape fs key data).1]
    simp [csLookup]
  · unfold FileServer.Store
    simp only [csWrite, FileServer.BroadCast, hw, hloop, hd]
    split
    · rename_i hcontra
      simp at hcontra
    · exact multiWrite_sent_keep _ _ _ (multiWrite_sent_keep _ _ _ hmem)

/-- The server of the C8 witness: its single peer accepts the two broadcast
writes and the stream marker, then fails the content write. -/
def fsPfW : FileServer := ⟨"1234", [], [⟨"p1", [], [], [true, true, true, false]⟩]⟩

/-- Witness for C8: the stream-write failure is surfaced, yet the data stays
locally durable. -/
theorem store_partial_failure_witness :
    (fsPfW.Store "k" [3]).2.2 = some (sendErr "p1")
    ∧ csLookup (fsPfW.Store "k" [3]).1.store "1234" "k" = some [3] := by
  have h := store_partial_failure fsPfW "k" [3] (sendErr "p1") (by decide) (by decide) rfl
  exact ⟨h.1, h.2.1⟩


/-- The declared size the fetch loop reads off the connection of one peer (0 when
fewer than 8 bytes can be read — the ignored binary.Read failure). -/
def getSize (p : Peer) : Nat :=
  (if (p.inbox.take 8).length = 8 then int64FromLE (p.inbox.take 8) else 0).toNat

/-- The bytes the fetch loop reads from one peer as file content: exactly the
declared size when the connection provides them. -/
def getData (p : Peer) : Bytes :=
  (p.inbox.drop 8).take (getSize p)

/-- The connection of one peer after the fetch loop consumed the size field and
the declared number of content bytes. -/
def consumeGetPeer (p : Peer) : Peer :=
  { p with inbox := (p.inbox.drop 8).drop (getSize p) }

/-- The content store after the fetch loop wrote the declared bytes of every peer
under (ns, key), in peer order. -/
def getStores (ns key : String) : List Peer → ContentStore → ContentStore
  | [], cs => cs
  | p :: rest, cs => getStores ns key rest (((ns, key), getData p) :: cs)

/-- The events of the fetch loop: per peer a size read, a content read and a
CloseStream, in order. -/
def getEvs : List Peer → List Event
  | [] => []
  | p :: rest =>
    .netRead p.addr (p.inbox.take 8) :: .netRead p.addr (getData p)
      :: .closeStream p.addr :: getEvs rest

/-- The fetch loop visits every peer in order, consuming the size field and
the declared bytes from each connection and inserting them into the store. -/
theorem getLoop_spec (ns key : String) :
    ∀ (ps : List Peer) (cs : ContentStore),
      getLoop ps cs ns key = (ps.map consumeGetPeer, getStores ns key ps cs, getEvs ps) := by
  intro ps
  induction ps with
  | nil => intro cs; rfl
  | cons p rest ih =>
    intro cs
    simp [getLoop, readN, csWrite, ih, consumeGetPeer, getData, getStores, getEvs, getSize]

/-- The serialized GetFile envelope for (id, key). -/
def getWire (id key : String) : Wire := [.tnat 1, .tstr id, .tstr key]

/-- C7: on a local miss (with the broadcast delivered to every peer), Get
iterates every registered peer unconditionally, on each connection reading
the fixed-width size and then exactly that many bytes into the content store
and signalling CloseStream, and after the loop returns exactly the result of
re-reading (ID, key) from the content store — the not-found error of the store
when the key is still absent. The theorem holds for arbitrary peer inboxes:
a failed size read (short inbox, leaving size 0) or any store write outcome
never diverts the returned value from that final local read. -/
theorem get_miss_spec (fs : FileServer) (key : String)
    (hmiss : csLookup fs.store fs.ID key = none)
    (hbc : ∀ p ∈ fs.peers, bcOk p = true) :
    fs.Get key =
      ({ fs with
          peers := (fs.peers.map (applySend2 (.raw [IncomingMessage])
            (.ctrl (getWire fs.ID key)))).map consumeGetPeer,
          store := getStores fs.ID key (fs.peers.map (applySend2 (.raw [IncomingMessage])
            (.ctrl (getWire fs.ID key)))) fs.store },
       bcEvents (.raw [IncomingMessage]) (.ctrl (getWire fs.ID key)) fs.peers
         ++ getEvs (fs.peers.map (applySend2 (.raw [IncomingMessage])
              (.ctrl (getWire fs.ID key)))),
       match csRead (getStores fs.ID key (fs.peers.map (applySend2 (.raw [IncomingMessage])
           (.ctrl (getWire fs.ID key)))) fs.store) fs.ID key with
       | .ok sv => .ok sv.2
       | .error e => .error e) := by
  have hw : gobEncode ⟨.getFile ⟨fs.ID, key⟩⟩ = some (getWire fs.ID key) := rfl
  have hloop := broadCastLoop_allOk (.raw [IncomingMessage])
    (.ctrl (getWire fs.ID key)) fs.peers hbc
  unfold FileServer.Get
  simp only [csHas, hmiss, FileServer.BroadCast, hw, hloop, getLoop_spec]
  simp only [Option.isSome_none, Bool.false_eq_true, if_false]
  split
  next sv heq => rfl
  next e heq => rfl

/-- The server of the C7 witness: no local copy; the connection of its single peer
carries a size field declaring 2 bytes, the 2 content bytes, and a stray
byte that must not be consumed. -/
def fsGmW : FileServer := ⟨"1234", [], [⟨"p1", int64LE 2 ++ [9, 9, 5], [], []⟩]⟩

/-- Witness for C7: the fetched bytes are returned from the final local read
and only the declared bytes are consumed. -/
theorem get_miss_spec_witness :
    (fsGmW.Get "k").2.2 = .ok [9, 9]
    ∧ (fsGmW.Get "k").1.peers = [⟨"p1", [5], [.raw [1], .ctrl (getWire "1234" "k")], []⟩] := by
  rw [get_miss_spec fsGmW "k" rfl (by decide)]
  constructor
  · rfl
  · rfl

end DistributedFs
